import Mathlib

/-!
Verification of the onos-topo device store (`atomixStore` in the `device`
package) against its natural-language specification.

The store operations (`Load`, `Store`, `Delete`, and the delivery loops of
`List` and `Watch`), the codec entry point `decodeDevice`, and the
`EventType` constants are translated from the source. The `Device` record
and its protobuf wire codec, as well as the backing atomix replicated map,
are not present under the source tree (the map is an external collaborator;
the generated `Device` type lives outside the provided files), so they are
modelled from the specification's data model and boundary description.
-/

set_option autoImplicit false

/-- Modelled from the spec: the `Credentials` nested structure of a Device
(spec section 3); the store treats it as opaque. -/
structure Credentials where
  user : String
  password : String
deriving DecidableEq, Repr

/-- Modelled from the spec: the `TlsConfig` nested structure of a Device
(spec section 3); the store treats it as opaque. -/
structure TlsConfig where
  caCert : String
  cert : String
  key : String
  plain : Bool
  insecure : Bool
deriving DecidableEq, Repr

/-- Modelled from the spec: the `Device` record used by the store (its Go
definition, `type ID string` / `type Revision uint64` / `type Device struct`,
is not under the provided sources). Field names follow the Go convention used
by the store code (`device.ID`, `device.Revision`, ...). `Revision = 0` means
"not yet persisted / no expected version". -/
structure Device where
  ID : String
  Address : String
  Target : String
  SoftwareVersion : String
  Timeout : Int
  Creds : Option Credentials
  Tls : Option TlsConfig
  Revision : Nat
deriving DecidableEq, Repr

/-- Error kinds surfaced by store operations (spec section 7): a conflict on
a conditional put/remove, and a decode failure on a stored payload. -/
inductive StoreErr where
  | conflictError
  | decodeError
deriving DecidableEq, Repr

/-- Modelled from the spec: the opaque byte value persisted in the map.
A well-formed payload carries exactly the Device fields other than
id/revision (spec sections 4.2 and 6: "map value = serialized Device payload
(all fields except id/revision)"); any other byte string is malformed. -/
inductive Bytes where
  | payload (address target softwareVersion : String) (timeout : Int)
      (creds : Option Credentials) (tls : Option TlsConfig)
  | malformed (raw : Nat)
deriving DecidableEq, Repr

/-- Modelled from the spec: `proto.Marshal` on the store's Device type (the
generated codec is not under the provided sources). Per spec section 4.2 it
serializes all fields except id/revision, which are carried by the map
key/version. It is pure and total. -/
def protoMarshal (d : Device) : Bytes :=
  .payload d.Address d.Target d.SoftwareVersion d.Timeout d.Creds d.Tls

/-- Modelled from the spec: `proto.Unmarshal` into a fresh Device. Fails on
malformed bytes; on success the parsed record carries proto zero values for
id/revision, since the payload does not encode them. -/
def protoUnmarshal : Bytes → Except StoreErr Device
  | .payload a t s tmo c tl => .ok ⟨"", a, t, s, tmo, c, tl, 0⟩
  | .malformed _ => .error .decodeError

/-- `decodeDevice` from the source: unmarshal the stored value, then stamp
the map key onto `ID` and the map entry version onto `Revision`. -/
def decodeDevice (key : String) (value : Bytes) (version : Nat) :
    Except StoreErr Device :=
  match protoUnmarshal value with
  | .error e => .error e
  | .ok device => .ok { device with ID := key, Revision := version }

/-- `EventType` from the source: a string-typed enumeration. -/
abbrev EventType := String

/-- `EventNone` from the source. -/
def EventNone : EventType := ""

/-- `EventInserted` from the source. -/
def EventInserted : EventType := "inserted"

/-- `EventUpdated` from the source. -/
def EventUpdated : EventType := "updated"

/-- `EventRemoved` from the source. -/
def EventRemoved : EventType := "removed"

/-- `Event` from the source: a store event for a device. The Go field `Type`
is spelled `type` here (`Type` is reserved in Lean); `Device` is `device`. -/
structure Event where
  type : EventType
  device : Device
deriving DecidableEq, Repr

/-- A key/value/version triple returned by the external atomix map
(`_map.KeyValue`), modelled at the spec boundary. The Go `Version` is an
`int64` assigned by the map; all versions it assigns are nonnegative, so it
is modelled as `Nat`. -/
structure KeyValue where
  Key : String
  Value : Bytes
  Version : Nat
deriving DecidableEq, Repr

/-- A raw change notification from the external atomix map
(`_map.MapEvent`), modelled at the spec boundary. The raw event kind
(`_map.MapEventType`) is a string-typed enumeration in the client library,
so it is modelled as `String`. The Go field `Type` is spelled `type` here. -/
structure MapEvent where
  type : String
  Key : String
  Value : Bytes
  Version : Nat
deriving DecidableEq, Repr

/-- Modelled from the spec: the state of the external replicated map
(spec sections 2 and 6): entries keyed by device id, each carrying the
stored bytes and a version counter assigned by the map on each successful
write, plus the next version the map will assign. -/
structure MapState where
  entries : List (String × Bytes × Nat)
  nextVersion : Nat
deriving DecidableEq, Repr

/-- The empty map; the first assigned version is 1, so every persisted
record has revision at least 1 (spec section 3). -/
def emptyMap : MapState := ⟨[], 1⟩

/-- Look up the entry for a key in the map's association list. -/
def lookupEntry : List (String × Bytes × Nat) → String → Option (Bytes × Nat)
  | [], _ => none
  | (k, v, ver) :: rest, key =>
      if k = key then some (v, ver) else lookupEntry rest key

/-- Write a key's entry, replacing an existing binding or appending. -/
def putEntry : List (String × Bytes × Nat) → String → Bytes → Nat →
    List (String × Bytes × Nat)
  | [], key, v, ver => [(key, v, ver)]
  | (k, v0, ver0) :: rest, key, v, ver =>
      if k = key then (key, v, ver) :: rest
      else (k, v0, ver0) :: putEntry rest key v ver

/-- Remove a key's entry. -/
def removeEntry : List (String × Bytes × Nat) → String →
    List (String × Bytes × Nat)
  | [], _ => []
  | (k, v, ver) :: rest, key =>
      if k = key then removeEntry rest key
      else (k, v, ver) :: removeEntry rest key

/-- The version the map currently holds for a key, if any. -/
def currentVersion (m : MapState) (key : String) : Option Nat :=
  (lookupEntry m.entries key).map (·.2)

/-- Modelled from the spec: the map's `Get` primitive; `none` when no entry
exists for the key (the Go client returns a nil `*KeyValue`). -/
def mapGet (m : MapState) (key : String) : Option KeyValue :=
  (lookupEntry m.entries key).map fun p => ⟨key, p.1, p.2⟩

/-- Modelled from the spec: the map's `Put` primitive. With no expected
version (`expect = none`) it writes unconditionally; with
`expect = some v` (the `WithVersion` option) it succeeds only when the
current entry's version equals `v`, failing with a conflict otherwise
(including when the entry is absent: "map entry has moved on, or was
deleted"). A successful write is assigned the map's next version. -/
def mapPut (m : MapState) (key : String) (value : Bytes) (expect : Option Nat) :
    Except StoreErr (MapState × KeyValue) :=
  match expect with
  | none =>
      .ok (⟨putEntry m.entries key value m.nextVersion, m.nextVersion + 1⟩,
           ⟨key, value, m.nextVersion⟩)
  | some v =>
      match lookupEntry m.entries key with
      | some (_, cur) =>
          if cur = v then
            .ok (⟨putEntry m.entries key value m.nextVersion, m.nextVersion + 1⟩,
                 ⟨key, value, m.nextVersion⟩)
          else .error .conflictError
      | none => .error .conflictError

/-- Modelled from the spec: the map's `Remove` primitive. With no expected
version it removes unconditionally and removing an absent key is not an
error; with an expected version it succeeds only when the current entry's
version matches, failing with a conflict otherwise. -/
def mapRemove (m : MapState) (key : String) (expect : Option Nat) :
    Except StoreErr MapState :=
  match expect with
  | none => .ok ⟨removeEntry m.entries key, m.nextVersion⟩
  | some v =>
      match lookupEntry m.entries key with
      | some (_, cur) =>
          if cur = v then .ok ⟨removeEntry m.entries key, m.nextVersion⟩
          else .error .conflictError
      | none => .error .conflictError

/-- `atomixStore.Load` from the source: fetch the current entry; absent
entries yield `ok none` (not an error); present entries are decoded, and a
decode failure is propagated. -/
def atomixStore.Load (m : MapState) (deviceID : String) :
    Except StoreErr (Option Device) :=
  match mapGet m deviceID with
  | none => .ok none
  | some kv =>
      match decodeDevice kv.Key kv.Value kv.Version with
      | .error e => .error e
      | .ok d => .ok (some d)

/-- `atomixStore.Store` from the source: marshal the device, then put it in
the map, unconditionally when `Revision = 0` and with the optimistic-lock
`WithVersion device.Revision` otherwise. Go mutates the caller's device in
place on success; here the second component of the result is the caller's
device after the call (unchanged on error, `Revision` updated to the
version the map assigned on success). -/
def atomixStore.Store (m : MapState) (device : Device) :
    Except StoreErr MapState × Device :=
  match (if device.Revision = 0 then
           mapPut m device.ID (protoMarshal device) none
         else
           mapPut m device.ID (protoMarshal device) (some device.Revision)) with
  | .error e => (.error e, device)
  | .ok (m', kv) => (.ok m', { device with Revision := kv.Version })

/-- `atomixStore.Delete` from the source: a conditional remove with
`WithVersion device.Revision` when `Revision > 0`, an unconditional remove
otherwise. -/
def atomixStore.Delete (m : MapState) (device : Device) :
    Except StoreErr MapState :=
  if device.Revision > 0 then
    match mapRemove m device.ID (some device.Revision) with
    | .error e => .error e
    | .ok m' => .ok m'
  else
    match mapRemove m device.ID none with
    | .error e => .error e
    | .ok m' => .ok m'

/-- The delivery loop of `atomixStore.List` from the source: for each
enumerated entry, decode it and send the device on success, silently
skipping entries that fail to decode; the returned list is the full
sequence delivered to the sink before it is closed. -/
def atomixStore.listDeliver : List KeyValue → List Device
  | [] => []
  | kv :: rest =>
      match decodeDevice kv.Key kv.Value kv.Version with
      | .ok device => device :: atomixStore.listDeliver rest
      | .error _ => atomixStore.listDeliver rest

/-- The delivery loop of `atomixStore.Watch` from the source: for each raw
map event, decode the value and emit an `Event` carrying
`EventType(event.Type)` (a direct string conversion of the raw kind) and
the decoded device, silently skipping events whose value fails to decode. -/
def atomixStore.watchDeliver : List MapEvent → List Event
  | [] => []
  | e :: rest =>
      match decodeDevice e.Key e.Value e.Version with
      | .ok device => ⟨e.type, device⟩ :: atomixStore.watchDeliver rest
      | .error _ => atomixStore.watchDeliver rest

/-- Modelled from the spec: a write operation applied to the external map
by some client (used to model histories of concurrent mutations for the
Watch replay/gap-freedom property). -/
inductive MapOp where
  | put (key : String) (value : Bytes)
  | remove (key : String)
deriving DecidableEq, Repr

/-- The effect of one map operation on the map state (an unconditional put
or remove, consuming a fresh version on a put). -/
def applyOp (m : MapState) : MapOp → MapState
  | .put k v => ⟨putEntry m.entries k v m.nextVersion, m.nextVersion + 1⟩
  | .remove k => ⟨removeEntry m.entries k, m.nextVersion⟩

/-- Whether a map operation addresses the given key. -/
def touches : MapOp → String → Prop
  | .put k _, key => k = key
  | .remove k, key => k = key

instance instDecidableTouches (op : MapOp) (key : String) :
    Decidable (touches op key) :=
  match op with
  | .put k _ => inferInstanceAs (Decidable (k = key))
  | .remove k => inferInstanceAs (Decidable (k = key))

/-- The map state reached from the empty map after a sequence of writes. -/
def stateAfter (ops : List MapOp) : MapState :=
  ops.foldl applyOp emptyMap

/-- Modelled from the spec: the raw live event the external feed emits for
one write: an `inserted` kind for a put creating the key, an `updated` kind
for a put over an existing key, a `removed` kind (carrying the removed
entry) for a remove of a present key, and nothing for a remove of an absent
key. -/
def liveEventOf (m : MapState) : MapOp → Option MapEvent
  | .put k v =>
      match lookupEntry m.entries k with
      | some _ => some ⟨"updated", k, v, m.nextVersion⟩
      | none => some ⟨"inserted", k, v, m.nextVersion⟩
  | .remove k =>
      match lookupEntry m.entries k with
      | some (v, ver) => some ⟨"removed", k, v, ver⟩
      | none => none

/-- The raw live events of a sequence of writes applied from state `m`. -/
def liveEvents (m : MapState) : List MapOp → List MapEvent
  | [] => []
  | op :: rest =>
      match liveEventOf m op with
      | some e => e :: liveEvents (applyOp m op) rest
      | none => liveEvents (applyOp m op) rest

/-- Modelled from the spec: the replay prefix of a `Watch` subscription with
`WithReplay`: one synthetic as-if-inserted raw event per entry existing at
the subscription point (spec glossary "Replay"). -/
def replayEvents (m : MapState) : List MapEvent :=
  m.entries.map fun e => ⟨"inserted", e.1, e.2.1, e.2.2⟩

/-- Modelled from the spec: the full raw feed seen by a `Watch` subscription
with replay whose subscription point splits the write history into `before`
and `after`: the replay of the state reached after `before`, followed by the
live events of `after` (spec section 5: replayed snapshot events precede all
live events delivered after subscription). -/
def feedWithReplay (before after : List MapOp) : List MapEvent :=
  replayEvents (stateAfter before) ++ liveEvents (stateAfter before) after

theorem lookup_putEntry_self (es : List (String × Bytes × Nat)) (k : String)
    (v : Bytes) (ver : Nat) :
    lookupEntry (putEntry es k v ver) k = some (v, ver) := by
  induction es with
  | nil => simp [putEntry, lookupEntry]
  | cons hd tl ih =>
    obtain ⟨k0, v0, ver0⟩ := hd
    by_cases h : k0 = k
    · simp [putEntry, h, lookupEntry]
    · simp [putEntry, h, lookupEntry, ih]

theorem lookup_putEntry_ne (es : List (String × Bytes × Nat)) (k' k : String)
    (v : Bytes) (ver : Nat) (h : k' ≠ k) :
    lookupEntry (putEntry es k' v ver) k = lookupEntry es k := by
  induction es with
  | nil => simp [putEntry, lookupEntry, h]
  | cons hd tl ih =>
    obtain ⟨k0, v0, ver0⟩ := hd
    by_cases h0 : k0 = k'
    · subst h0
      simp [putEntry, lookupEntry, h]
    · by_cases hk : k0 = k
      · simp [putEntry, h0, lookupEntry, hk, Ne.symm h]
      · simp [putEntry, h0, lookupEntry, hk, ih]

theorem lookup_removeEntry_ne (es : List (String × Bytes × Nat)) (k' k : String)
    (h : k' ≠ k) :
    lookupEntry (removeEntry es k') k = lookupEntry es k := by
  induction es with
  | nil => simp [removeEntry]
  | cons hd tl ih =>
    obtain ⟨k0, v0, ver0⟩ := hd
    by_cases h0 : k0 = k'
    · have hk : k0 ≠ k := by rw [h0]; exact h
      simp [removeEntry, h0, lookupEntry, hk, ih, h]
    · by_cases hk : k0 = k
      · simp [removeEntry, h0, lookupEntry, hk, Ne.symm h]
      · simp [removeEntry, h0, lookupEntry, hk, ih]

theorem lookup_removeEntry_self (es : List (String × Bytes × Nat)) (k : String) :
    lookupEntry (removeEntry es k) k = none := by
  induction es with
  | nil => simp [removeEntry, lookupEntry]
  | cons hd tl ih =>
    obtain ⟨k0, v0, ver0⟩ := hd
    by_cases h0 : k0 = k
    · simp [removeEntry, h0, ih]
    · simp [removeEntry, h0, lookupEntry, ih]

theorem removeEntry_of_lookup_none (es : List (String × Bytes × Nat))
    (k : String) (h : lookupEntry es k = none) : removeEntry es k = es := by
  induction es with
  | nil => simp [removeEntry]
  | cons hd tl ih =>
    obtain ⟨k0, v0, ver0⟩ := hd
    by_cases h0 : k0 = k
    · simp [lookupEntry, h0] at h
    · simp [lookupEntry, h0] at h
      simp [removeEntry, h0, ih h]

theorem lookup_mem (es : List (String × Bytes × Nat)) (k : String) (v : Bytes)
    (ver : Nat) (h : lookupEntry es k = some (v, ver)) : (k, v, ver) ∈ es := by
  induction es with
  | nil => simp [lookupEntry] at h
  | cons hd tl ih =>
    obtain ⟨k0, v0, ver0⟩ := hd
    by_cases h0 : k0 = k
    · subst h0
      simp [lookupEntry] at h
      obtain ⟨hv, hver⟩ := h
      subst hv
      subst hver
      exact List.mem_cons_self _ _
    · simp [lookupEntry, h0] at h
      exact List.mem_cons_of_mem _ (ih h)

theorem decode_protoMarshal (key : String) (ver : Nat) (d : Device) :
    decodeDevice key (protoMarshal d) ver =
      .ok { d with ID := key, Revision := ver } := by
  cases d
  rfl

theorem lookup_applyOp_not_touches (m : MapState) (op : MapOp) (k : String)
    (h : ¬ touches op k) :
    lookupEntry (applyOp m op).entries k = lookupEntry m.entries k := by
  cases op with
  | put k' v => exact lookup_putEntry_ne _ _ _ _ _ h
  | remove k' => exact lookup_removeEntry_ne _ _ _ h

theorem lookup_foldl_not_touches (ops : List MapOp) (m : MapState) (k : String)
    (h : ∀ op ∈ ops, ¬ touches op k) :
    lookupEntry (ops.foldl applyOp m).entries k = lookupEntry m.entries k := by
  induction ops generalizing m with
  | nil => rfl
  | cons op rest ih =>
    rw [List.foldl_cons, ih _ (fun o ho => h o (List.mem_cons_of_mem _ ho)),
        lookup_applyOp_not_touches _ _ _ (h op (List.mem_cons_self _ _))]

theorem foldl_keeps_value (ops : List MapOp) (m : MapState) (k : String)
    (v : Bytes) (h : ∀ op ∈ ops, op = MapOp.put k v ∨ ¬ touches op k)
    (hm : ∃ ver, lookupEntry m.entries k = some (v, ver)) :
    ∃ ver, lookupEntry (ops.foldl applyOp m).entries k = some (v, ver) := by
  induction ops generalizing m with
  | nil => exact hm
  | cons op rest ih =>
    rw [List.foldl_cons]
    apply ih _ (fun o ho => h o (List.mem_cons_of_mem _ ho))
    rcases h op (List.mem_cons_self _ _) with hop | hop
    · subst hop
      exact ⟨m.nextVersion, lookup_putEntry_self _ _ _ _⟩
    · rw [lookup_applyOp_not_touches _ _ _ hop]
      exact hm

theorem foldl_put_value (ops : List MapOp) (m : MapState) (k : String)
    (v : Bytes) (h : ∀ op ∈ ops, op = MapOp.put k v ∨ ¬ touches op k)
    (hmem : MapOp.put k v ∈ ops) :
    ∃ ver, lookupEntry (ops.foldl applyOp m).entries k = some (v, ver) := by
  induction ops generalizing m with
  | nil => simp at hmem
  | cons op rest ih =>
    rw [List.foldl_cons]
    by_cases hop : op = MapOp.put k v
    · subst hop
      apply foldl_keeps_value _ _ _ _ (fun o ho => h o (List.mem_cons_of_mem _ ho))
      exact ⟨m.nextVersion, lookup_putEntry_self _ _ _ _⟩
    · have hmem' : MapOp.put k v ∈ rest := by
        rcases List.mem_cons.mp hmem with h1 | h1
        · exact absurd h1.symm hop
        · exact h1
      exact ih _ (fun o ho => h o (List.mem_cons_of_mem _ ho)) hmem'

theorem liveEvents_append (m : MapState) (xs ys : List MapOp) :
    liveEvents m (xs ++ ys) =
      liveEvents m xs ++ liveEvents (xs.foldl applyOp m) ys := by
  induction xs generalizing m with
  | nil => simp [liveEvents]
  | cons op rest ih =>
    rw [List.cons_append, List.foldl_cons]
    cases hop : liveEventOf m op <;> simp [liveEvents, hop, ih]

theorem mem_replayEvents (m : MapState) (k : String) (v : Bytes) (ver : Nat)
    (h : lookupEntry m.entries k = some (v, ver)) :
    (⟨"inserted", k, v, ver⟩ : MapEvent) ∈ replayEvents m :=
  List.mem_map_of_mem _ (lookup_mem _ _ _ _ h)

theorem mem_watchDeliver (evs : List MapEvent) (e : MapEvent) (d : Device)
    (he : e ∈ evs) (hd : decodeDevice e.Key e.Value e.Version = .ok d) :
    (⟨e.type, d⟩ : Event) ∈ atomixStore.watchDeliver evs := by
  induction evs with
  | nil => simp at he
  | cons e0 rest ih =>
    rcases List.mem_cons.mp he with h0 | h0
    · subst h0
      simp [atomixStore.watchDeliver, hd]
    · cases hdec : decodeDevice e0.Key e0.Value e0.Version with
      | ok d0 =>
        simp only [atomixStore.watchDeliver, hdec]
        exact List.mem_cons_of_mem _ (ih h0)
      | error er =>
        simp only [atomixStore.watchDeliver, hdec]
        exact ih h0

theorem mem_first_split {α : Type} (a : α) (l : List α) (h : a ∈ l) :
    ∃ s t, l = s ++ a :: t ∧ a ∉ s := by
  induction l with
  | nil => simp at h
  | cons b rest ih =>
    by_cases hba : b = a
    · subst hba
      exact ⟨[], rest, rfl, by simp⟩
    · have h' : a ∈ rest := by
        rcases List.mem_cons.mp h with h1 | h1
        · exact absurd h1.symm hba
        · exact h1
      obtain ⟨s, t, hl, hns⟩ := ih h'
      refine ⟨b :: s, t, by rw [hl, List.cons_append], ?_⟩
      intro hmem
      rcases List.mem_cons.mp hmem with h2 | h2
      · exact hba h2.symm
      · exact hns h2

/-- A concrete device used by witness theorems (`Revision = 0`, id `d1`). -/
def devW : Device :=
  ⟨"d1", "10.0.0.1:830", "target-1", "1.0.0", 5,
   some ⟨"user", "pass"⟩, some ⟨"ca", "cert", "key", false, true⟩, 0⟩

/-- `devW` carrying revision 1, the decoded form of its stored entry. -/
def devD1 : Device := { devW with Revision := 1 }

/-- `devW` carrying a stale revision 3. -/
def devD3 : Device := { devW with Revision := 3 }

/-- `devW` carrying revision 5, conflicting with any map that lacks it. -/
def devC : Device := { devW with Revision := 5 }

/-- `devW` with a different id and revision but the same payload fields. -/
def devZ : Device := { devW with ID := "z", Revision := 9 }

/-- The device produced by unmarshalling `devW`'s payload before stamping. -/
def d0W : Device :=
  ⟨"", devW.Address, devW.Target, devW.SoftwareVersion, devW.Timeout,
   devW.Creds, devW.Tls, 0⟩

/-- A one-entry map holding `devW`'s payload at version 1. -/
def mW : MapState := ⟨[("d1", protoMarshal devW, 1)], 2⟩

/-- A one-entry map holding malformed bytes at version 1. -/
def mBad : MapState := ⟨[("d1", Bytes.malformed 0, 1)], 2⟩

/-- C1: for every Device passed to Store, a zero revision issues an
unconditional put for key `device.ID` (creating or blindly overwriting the
entry), while a nonzero revision issues a conditional put that succeeds
exactly when the map's current version for that key equals
`device.Revision` and fails with a ConflictError otherwise. -/
theorem store_conditional_put_semantics (m : MapState) (d : Device) :
    (d.Revision = 0 →
      ∃ m', (atomixStore.Store m d).1 = Except.ok m' ∧
        lookupEntry m'.entries d.ID = some (protoMarshal d, m.nextVersion))
    ∧ (d.Revision ≠ 0 →
      (currentVersion m d.ID = some d.Revision →
        ∃ m', (atomixStore.Store m d).1 = Except.ok m' ∧
          lookupEntry m'.entries d.ID = some (protoMarshal d, m.nextVersion))
      ∧ (currentVersion m d.ID ≠ some d.Revision →
        (atomixStore.Store m d).1 = Except.error StoreErr.conflictError)) := by
  constructor
  · intro h0
    refine ⟨⟨putEntry m.entries d.ID (protoMarshal d) m.nextVersion,
             m.nextVersion + 1⟩, ?_, lookup_putEntry_self _ _ _ _⟩
    simp [atomixStore.Store, mapPut, h0]
  · intro hne
    constructor
    · intro hcur
      unfold currentVersion at hcur
      cases hl : lookupEntry m.entries d.ID with
      | none => rw [hl] at hcur; simp at hcur
      | some p =>
        obtain ⟨b, cur⟩ := p
        rw [hl] at hcur
        simp at hcur
        subst hcur
        refine ⟨⟨putEntry m.entries d.ID (protoMarshal d) m.nextVersion,
                 m.nextVersion + 1⟩, ?_, lookup_putEntry_self _ _ _ _⟩
        simp [atomixStore.Store, mapPut, hne, hl]
    · intro hcur
      cases hl : lookupEntry m.entries d.ID with
      | none => simp [atomixStore.Store, mapPut, hne, hl]
      | some p =>
        obtain ⟨b, cur⟩ := p
        have hcv : cur ≠ d.Revision := by
          intro he
          apply hcur
          unfold currentVersion
          rw [hl, he]
          rfl
        simp [atomixStore.Store, mapPut, hne, hl, hcv]

/-- Witness for C1: on the empty map, storing `devW` (revision 0) succeeds
and writes its payload at version 1, while storing `devC` (revision 5,
which the map does not hold) fails with a conflict. -/
theorem store_conditional_put_semantics_witness :
    (∃ m', (atomixStore.Store emptyMap devW).1 = Except.ok m' ∧
      lookupEntry m'.entries devW.ID =
        some (protoMarshal devW, emptyMap.nextVersion))
    ∧ (atomixStore.Store emptyMap devC).1 = Except.error StoreErr.conflictError :=
  ⟨(store_conditional_put_semantics emptyMap devW).1 rfl,
   ((store_conditional_put_semantics emptyMap devC).2 (by decide)).2 (by decide)⟩

/-- C4: on every successful Store, the caller's device comes back with its
`Revision` updated in place to the version the map assigned to that write,
which is also the map's current version for the key afterwards (the
compare-and-swap token for the next update). -/
theorem store_success_updates_revision (m : MapState) (d : Device)
    (m' : MapState) (h : (atomixStore.Store m d).1 = Except.ok m') :
    (atomixStore.Store m d).2 = { d with Revision := m.nextVersion }
    ∧ currentVersion m' d.ID = some m.nextVersion := by
  by_cases h0 : d.Revision = 0
  · have hs : atomixStore.Store m d =
        (Except.ok ⟨putEntry m.entries d.ID (protoMarshal d) m.nextVersion,
          m.nextVersion + 1⟩, { d with Revision := m.nextVersion }) := by
      simp [atomixStore.Store, mapPut, h0]
    rw [hs] at h
    simp only [Except.ok.injEq] at h
    subst h
    refine ⟨by rw [hs], ?_⟩
    simp [currentVersion, lookup_putEntry_self]
  · cases hl : lookupEntry m.entries d.ID with
    | none =>
      have hc : (atomixStore.Store m d).1 = Except.error StoreErr.conflictError := by
        simp [atomixStore.Store, mapPut, h0, hl]
      rw [hc] at h
      cases h
    | some p =>
      obtain ⟨b, cur⟩ := p
      by_cases hcv : cur = d.Revision
      · subst hcv
        have hs : atomixStore.Store m d =
            (Except.ok ⟨putEntry m.entries d.ID (protoMarshal d) m.nextVersion,
              m.nextVersion + 1⟩, { d with Revision := m.nextVersion }) := by
          simp [atomixStore.Store, mapPut, h0, hl]
        rw [hs] at h
        simp only [Except.ok.injEq] at h
        subst h
        refine ⟨by rw [hs], ?_⟩
        simp [currentVersion, lookup_putEntry_self]
      · have hc : (atomixStore.Store m d).1 = Except.error StoreErr.conflictError := by
          simp [atomixStore.Store, mapPut, h0, hl, hcv]
        rw [hc] at h
        cases h

/-- Witness for C4: storing `devW` on the empty map returns the device with
revision 1, and version 1 is the map's current version for `d1`. -/
theorem store_success_updates_revision_witness :
    (atomixStore.Store emptyMap devW).2 =
      { devW with Revision := emptyMap.nextVersion }
    ∧ currentVersion
        ⟨putEntry emptyMap.entries devW.ID (protoMarshal devW)
          emptyMap.nextVersion, emptyMap.nextVersion + 1⟩ devW.ID =
        some emptyMap.nextVersion :=
  store_success_updates_revision emptyMap devW _ rfl

/-- C10: whenever Store returns an error (a conditional-put conflict in
this model; encoding is total and pure), the caller's device is returned
unchanged, so `Revision` keeps its pre-call value. -/
theorem store_error_leaves_device_unchanged (m : MapState) (d : Device)
    (e : StoreErr) (h : (atomixStore.Store m d).1 = Except.error e) :
    (atomixStore.Store m d).2 = d := by
  cases hres : (if d.Revision = 0 then mapPut m d.ID (protoMarshal d) none
                else mapPut m d.ID (protoMarshal d) (some d.Revision)) with
  | error e' => simp [atomixStore.Store, hres]
  | ok p =>
    obtain ⟨m', kv⟩ := p
    simp [atomixStore.Store, hres] at h

/-- Witness for C10: the conflicting store of `devC` on the empty map
returns the device unchanged. -/
theorem store_error_leaves_device_unchanged_witness :
    (atomixStore.Store emptyMap devC).2 = devC :=
  store_error_leaves_device_unchanged emptyMap devC StoreErr.conflictError rfl

/-- C5: for every Device passed to Delete, a positive revision issues a
conditional remove that succeeds exactly when the map's current version
equals it and fails with a ConflictError otherwise; a zero revision issues
an unconditional remove with no staleness check; and unconditionally
removing a key that does not exist succeeds and leaves the map unchanged. -/
theorem delete_semantics (m : MapState) (d : Device) :
    (d.Revision ≠ 0 →
      (currentVersion m d.ID = some d.Revision →
        ∃ m', atomixStore.Delete m d = Except.ok m' ∧
          lookupEntry m'.entries d.ID = none)
      ∧ (currentVersion m d.ID ≠ some d.Revision →
        atomixStore.Delete m d = Except.error StoreErr.conflictError))
    ∧ (d.Revision = 0 →
      ∃ m', atomixStore.Delete m d = Except.ok m' ∧
        lookupEntry m'.entries d.ID = none)
    ∧ (d.Revision = 0 → lookupEntry m.entries d.ID = none →
      atomixStore.Delete m d = Except.ok m) := by
  refine ⟨?_, ?_, ?_⟩
  · intro hne
    have hpos : 0 < d.Revision := Nat.pos_of_ne_zero hne
    constructor
    · intro hcur
      unfold currentVersion at hcur
      cases hl : lookupEntry m.entries d.ID with
      | none => rw [hl] at hcur; simp at hcur
      | some p =>
        obtain ⟨b, cur⟩ := p
        rw [hl] at hcur
        simp at hcur
        subst hcur
        refine ⟨⟨removeEntry m.entries d.ID, m.nextVersion⟩, ?_,
                lookup_removeEntry_self _ _⟩
        simp [atomixStore.Delete, mapRemove, hpos, hl]
    · intro hcur
      cases hl : lookupEntry m.entries d.ID with
      | none => simp [atomixStore.Delete, mapRemove, hpos, hl]
      | some p =>
        obtain ⟨b, cur⟩ := p
        have hcv : cur ≠ d.Revision := by
          intro he
          apply hcur
          unfold currentVersion
          rw [hl, he]
          rfl
        simp [atomixStore.Delete, mapRemove, hpos, hl, hcv]
  · intro h0
    refine ⟨⟨removeEntry m.entries d.ID, m.nextVersion⟩, ?_,
            lookup_removeEntry_self _ _⟩
    simp [atomixStore.Delete, mapRemove, h0]
  · intro h0 hl
    have hre := removeEntry_of_lookup_none _ _ hl
    simp [atomixStore.Delete, mapRemove, h0, hre]

/-- Witness for C5: on the one-entry map at version 1, deleting with
revision 1 succeeds and removes the entry, deleting with stale revision 3
conflicts, and unconditionally deleting an absent key on the empty map
succeeds and leaves the map unchanged. -/
theorem delete_semantics_witness :
    (∃ m', atomixStore.Delete mW devD1 = Except.ok m' ∧
      lookupEntry m'.entries devD1.ID = none)
    ∧ atomixStore.Delete mW devD3 = Except.error StoreErr.conflictError
    ∧ atomixStore.Delete emptyMap devW = Except.ok emptyMap :=
  ⟨((delete_semantics mW devD1).1 (by decide)).1 (by decide),
   ((delete_semantics mW devD3).1 (by decide)).2 (by decide),
   (delete_semantics emptyMap devW).2.2 rfl rfl⟩

/-- C6: for every id passed to Load, an absent entry yields the
distinguished empty result `ok none` with no error; a present entry whose
bytes cannot be parsed propagates the decode error; and a present entry
that parses is returned as the decoded device stamped with the map key and
version. -/
theorem load_semantics (m : MapState) (deviceID : String) :
    (lookupEntry m.entries deviceID = none →
      atomixStore.Load m deviceID = Except.ok none)
    ∧ (∀ b ver, lookupEntry m.entries deviceID = some (b, ver) →
        (∀ e, protoUnmarshal b = Except.error e →
          atomixStore.Load m deviceID = Except.error e)
        ∧ (∀ d0, protoUnmarshal b = Except.ok d0 →
          atomixStore.Load m deviceID =
            Except.ok (some { d0 with ID := deviceID, Revision := ver }))) := by
  constructor
  · intro hl
    simp [atomixStore.Load, mapGet, hl]
  · intro b ver hl
    constructor
    · intro e hu
      simp [atomixStore.Load, mapGet, hl, decodeDevice, hu]
    · intro d0 hu
      simp [atomixStore.Load, mapGet, hl, decodeDevice, hu]

/-- Witness for C6: loading an absent id yields `ok none`; loading the
malformed entry propagates the decode error; loading `devW`'s stored entry
returns it stamped with key `d1` and version 1. -/
theorem load_semantics_witness :
    atomixStore.Load emptyMap "zz" = Except.ok none
    ∧ atomixStore.Load mBad "d1" = Except.error StoreErr.decodeError
    ∧ atomixStore.Load mW "d1" =
        Except.ok (some { d0W with ID := "d1", Revision := 1 }) :=
  ⟨(load_semantics emptyMap "zz").1 rfl,
   ((load_semantics mBad "d1").2 (Bytes.malformed 0) 1 rfl).1
     StoreErr.decodeError rfl,
   ((load_semantics mW "d1").2 (protoMarshal devW) 1 rfl).2 d0W rfl⟩

/-- C2: decoding the bytes produced by encoding a device, with any key and
version supplied at decode time, reproduces every field of the device
except id and revision, and the returned device's id and revision are taken
from the map entry's key and version. -/
theorem decode_encode_roundtrip (d : Device) (key : String) (ver : Nat) :
    ∃ d', decodeDevice key (protoMarshal d) ver = Except.ok d'
      ∧ d'.Address = d.Address ∧ d'.Target = d.Target
      ∧ d'.SoftwareVersion = d.SoftwareVersion ∧ d'.Timeout = d.Timeout
      ∧ d'.Creds = d.Creds ∧ d'.Tls = d.Tls
      ∧ d'.ID = key ∧ d'.Revision = ver :=
  ⟨{ d with ID := key, Revision := ver },
   decode_protoMarshal key ver d, rfl, rfl, rfl, rfl, rfl, rfl, rfl, rfl⟩

/-- C3: the encode step serializes all fields of a device except id and
revision: the payload does not depend on id or revision, and it determines
every other field. -/
theorem encode_excludes_id_revision :
    (∀ (d : Device) (i : String) (r : Nat),
      protoMarshal { d with ID := i, Revision := r } = protoMarshal d)
    ∧ (∀ d d' : Device, protoMarshal d = protoMarshal d' →
      { d with ID := d'.ID, Revision := d'.Revision } = d') := by
  constructor
  · intro d i r
    rfl
  · intro d d' h
    cases d
    cases d'
    simp [protoMarshal] at h
    obtain ⟨h1, h2, h3, h4, h5, h6⟩ := h
    subst h1
    subst h2
    subst h3
    subst h4
    subst h5
    subst h6
    rfl

/-- Witness for C3: `devZ` (a re-id and re-revision of `devW`) encodes to
the same payload as `devW`, and any device encoding like `devZ` agrees with
it on everything but id and revision. -/
theorem encode_excludes_id_revision_witness :
    protoMarshal devZ = protoMarshal devW
    ∧ ({ devW with ID := devZ.ID, Revision := devZ.Revision } : Device) = devZ :=
  ⟨encode_excludes_id_revision.1 devW "z" 9,
   encode_excludes_id_revision.2 devW devZ rfl⟩

/-- C7: the List delivery loop sends to the sink exactly the entries that
decode, in enumeration order: the delivered sequence is the filter-map of
decoding over the enumerated entries, every decodable entry is delivered,
an entry that fails to decode is skipped without any stream failure, and an
exhausted enumeration yields a closed (empty-remainder) sink. -/
theorem list_semantics (entries : List KeyValue) :
    atomixStore.listDeliver entries =
      entries.filterMap
        (fun kv => (decodeDevice kv.Key kv.Value kv.Version).toOption)
    ∧ (∀ kv ∈ entries, ∀ d, decodeDevice kv.Key kv.Value kv.Version = Except.ok d →
        d ∈ atomixStore.listDeliver entries)
    ∧ (∀ (kv : KeyValue) (rest : List KeyValue) (e : StoreErr),
        decodeDevice kv.Key kv.Value kv.Version = Except.error e →
        atomixStore.listDeliver (kv :: rest) = atomixStore.listDeliver rest)
    ∧ atomixStore.listDeliver [] = [] := by
  refine ⟨?_, ?_, ?_, rfl⟩
  · induction entries with
    | nil => rfl
    | cons kv rest ih =>
      cases hd : decodeDevice kv.Key kv.Value kv.Version with
      | ok d => simp [atomixStore.listDeliver, hd, Except.toOption, ih]
      | error e => simp [atomixStore.listDeliver, hd, Except.toOption, ih]
  · induction entries with
    | nil =>
      intro kv h
      simp at h
    | cons kv0 rest ih =>
      intro kv hkv d hd
      rcases List.mem_cons.mp hkv with h0 | h0
      · subst h0
        simp [atomixStore.listDeliver, hd]
      · cases hd0 : decodeDevice kv0.Key kv0.Value kv0.Version with
        | ok d0 =>
          simp only [atomixStore.listDeliver, hd0]
          exact List.mem_cons_of_mem _ (ih kv h0 d hd)
        | error e =>
          simp only [atomixStore.listDeliver, hd0]
          exact ih kv h0 d hd
  · intro kv rest e hd
    simp [atomixStore.listDeliver, hd]

/-- Witness for C7: enumerating one good entry and one malformed entry
delivers exactly the decoded good device; the malformed entry alone is
skipped. -/
theorem list_semantics_witness :
    ({ devW with Revision := 1 } : Device) ∈
      atomixStore.listDeliver
        [⟨"d1", protoMarshal devW, 1⟩, ⟨"bad", Bytes.malformed 7, 2⟩]
    ∧ atomixStore.listDeliver [⟨"bad", Bytes.malformed 7, 2⟩] =
        atomixStore.listDeliver [] :=
  ⟨(list_semantics [⟨"d1", protoMarshal devW, 1⟩, ⟨"bad", Bytes.malformed 7, 2⟩]).2.1
      ⟨"d1", protoMarshal devW, 1⟩ (by decide) { devW with Revision := 1 } rfl,
   (list_semantics []).2.2.1 ⟨"bad", Bytes.malformed 7, 2⟩ []
      StoreErr.decodeError rfl⟩

/-- C8 counterexample: the event translator is a direct string cast, so a
raw event kind outside the known enumeration is passed through unchanged
rather than mapped to `EventNone`: on a raw event of kind `bogus` the
emitted domain event has type `bogus`, which is none of the four constants. -/
theorem event_translator_unknown_kind_counterexample :
    atomixStore.watchDeliver [⟨"bogus", "d1", protoMarshal devW, 1⟩] =
      [⟨"bogus", { devW with Revision := 1 }⟩]
    ∧ ("bogus" : EventType) ≠ EventNone
    ∧ ("bogus" : EventType) ≠ EventInserted
    ∧ ("bogus" : EventType) ≠ EventUpdated
    ∧ ("bogus" : EventType) ≠ EventRemoved :=
  ⟨rfl, by decide, by decide, by decide, by decide⟩

/-- C8 amended: the translator casts each raw map event kind directly to
the domain event type, so the raw kinds `inserted`, `updated` and `removed`
map 1:1 onto `EventInserted`, `EventUpdated` and `EventRemoved` and the
empty raw kind maps to `EventNone`, while any other raw kind is passed
through unchanged (not mapped to `EventNone`); the emitted event carries
the decoded device. -/
theorem event_translator_amended (e : MapEvent) (rest : List MapEvent)
    (d : Device) (h : decodeDevice e.Key e.Value e.Version = Except.ok d) :
    atomixStore.watchDeliver (e :: rest) =
      ⟨e.type, d⟩ :: atomixStore.watchDeliver rest
    ∧ (e.type = "inserted" → (⟨e.type, d⟩ : Event).type = EventInserted)
    ∧ (e.type = "updated" → (⟨e.type, d⟩ : Event).type = EventUpdated)
    ∧ (e.type = "removed" → (⟨e.type, d⟩ : Event).type = EventRemoved)
    ∧ (e.type = "" → (⟨e.type, d⟩ : Event).type = EventNone)
    ∧ (⟨e.type, d⟩ : Event).device = d :=
  ⟨by simp [atomixStore.watchDeliver, h],
   fun ht => ht.trans rfl, fun ht => ht.trans rfl, fun ht => ht.trans rfl,
   fun ht => ht.trans rfl, rfl⟩

/-- Witness for C8 amended: a raw `inserted` event over `devW`'s payload is
delivered as a domain event of type `EventInserted` carrying the decoded
device. -/
theorem event_translator_amended_witness :
    atomixStore.watchDeliver [⟨"inserted", "d1", protoMarshal devW, 1⟩] =
      ⟨"inserted", { devW with Revision := 1 }⟩ :: atomixStore.watchDeliver []
    ∧ ("inserted" = "inserted" →
        (⟨"inserted", ({ devW with Revision := 1 } : Device)⟩ : Event).type =
          EventInserted) :=
  ⟨(event_translator_amended ⟨"inserted", "d1", protoMarshal devW, 1⟩ []
      { devW with Revision := 1 } rfl).1,
   (event_translator_amended ⟨"inserted", "d1", protoMarshal devW, 1⟩ []
      { devW with Revision := 1 } rfl).2.1⟩

/-- C9: for a Watch subscription with replay whose subscription point splits
the write history into `before` and `after`, the replay — one synthetic
as-if-inserted event per entry existing at the subscription point — is the
initial segment of the feed, preceding every live event; and a device
stored concurrently with subscription (its put lands in `before` or in
`after`, and nothing else touches its key) is observed by the subscriber
either in the replay or as an `EventInserted` event in the live tail, never
in neither. -/
theorem watch_gap_freedom (before after : List MapOp) (k : String) (d : Device)
    (hmem : MapOp.put k (protoMarshal d) ∈ before ++ after)
    (honly : ∀ op ∈ before ++ after,
      op = MapOp.put k (protoMarshal d) ∨ ¬ touches op k) :
    (feedWithReplay before after).take (replayEvents (stateAfter before)).length
      = replayEvents (stateAfter before)
    ∧ (∀ ent ∈ (stateAfter before).entries,
        (⟨"inserted", ent.1, ent.2.1, ent.2.2⟩ : MapEvent) ∈
          (feedWithReplay before after).take
            (replayEvents (stateAfter before)).length)
    ∧ ∃ ev ∈ atomixStore.watchDeliver (feedWithReplay before after),
        ev.type = EventInserted ∧ ev.device.ID = k := by
  have htake : (feedWithReplay before after).take
      (replayEvents (stateAfter before)).length
      = replayEvents (stateAfter before) := by
    show (replayEvents (stateAfter before) ++
      liveEvents (stateAfter before) after).take
        (replayEvents (stateAfter before)).length
      = replayEvents (stateAfter before)
    exact List.take_left _ _
  refine ⟨htake, ?_, ?_⟩
  · intro ent hent
    rw [htake]
    exact List.mem_map_of_mem _ hent
  · by_cases hb : MapOp.put k (protoMarshal d) ∈ before
    · have honly' : ∀ op ∈ before,
          op = MapOp.put k (protoMarshal d) ∨ ¬ touches op k :=
        fun op ho => honly op (List.mem_append_left _ ho)
      obtain ⟨ver, hver⟩ :=
        foldl_put_value before emptyMap k (protoMarshal d) honly' hb
      have hrep : (⟨"inserted", k, protoMarshal d, ver⟩ : MapEvent) ∈
          replayEvents (stateAfter before) :=
        mem_replayEvents _ _ _ _ hver
      have hfeed : (⟨"inserted", k, protoMarshal d, ver⟩ : MapEvent) ∈
          feedWithReplay before after := by
        show _ ∈ replayEvents (stateAfter before) ++
          liveEvents (stateAfter before) after
        exact List.mem_append_left _ hrep
      refine ⟨⟨"inserted", { d with ID := k, Revision := ver }⟩, ?_, rfl, rfl⟩
      exact mem_watchDeliver _ _ _ hfeed (decode_protoMarshal _ _ _)
    · have hmem' : MapOp.put k (protoMarshal d) ∈ after := by
        rcases List.mem_append.mp hmem with h1 | h1
        · exact absurd h1 hb
        · exact h1
      have hnb : ∀ op ∈ before, ¬ touches op k := by
        intro op ho
        rcases honly op (List.mem_append_left _ ho) with h1 | h1
        · subst h1
          exact absurd ho hb
        · exact h1
      have hbefore_none : lookupEntry (stateAfter before).entries k = none := by
        show lookupEntry (before.foldl applyOp emptyMap).entries k = none
        rw [lookup_foldl_not_touches _ _ _ hnb]
        rfl
      obtain ⟨s, t, hsplit, hns⟩ := mem_first_split _ _ hmem'
      have hs_nt : ∀ op ∈ s, ¬ touches op k := by
        intro op ho
        have hos : op ∈ after := by
          rw [hsplit]
          exact List.mem_append_left _ ho
        rcases honly op (List.mem_append_right _ hos) with h1 | h1
        · subst h1
          exact absurd ho hns
        · exact h1
      have hs_none :
          lookupEntry (s.foldl applyOp (stateAfter before)).entries k = none := by
        rw [lookup_foldl_not_touches _ _ _ hs_nt, hbefore_none]
      have hlive : liveEvents (stateAfter before) after =
          liveEvents (stateAfter before) s ++
          liveEvents (s.foldl applyOp (stateAfter before))
            (MapOp.put k (protoMarshal d) :: t) := by
        rw [hsplit, liveEvents_append]
      have hhead : liveEvents (s.foldl applyOp (stateAfter before))
            (MapOp.put k (protoMarshal d) :: t) =
          (⟨"inserted", k, protoMarshal d,
            (s.foldl applyOp (stateAfter before)).nextVersion⟩ : MapEvent) ::
          liveEvents
            (applyOp (s.foldl applyOp (stateAfter before))
              (MapOp.put k (protoMarshal d))) t := by
        simp [liveEvents, liveEventOf, hs_none]
      have hfeed : (⟨"inserted", k, protoMarshal d,
          (s.foldl applyOp (stateAfter before)).nextVersion⟩ : MapEvent) ∈
          feedWithReplay before after := by
        show _ ∈ replayEvents (stateAfter before) ++
          liveEvents (stateAfter before) after
        apply List.mem_append_right
        rw [hlive]
        apply List.mem_append_right
        rw [hhead]
        exact List.mem_cons_self _ _
      refine ⟨⟨"inserted",
          { d with
              ID := k,
              Revision := (s.foldl applyOp (stateAfter before)).nextVersion }⟩,
        ?_, rfl, rfl⟩
      exact mem_watchDeliver _ _ _ hfeed (decode_protoMarshal _ _ _)

/-- Witness for C9: subscribing on the empty history and then storing `devW`
under key `d1` yields a subscriber stream containing an `EventInserted`
event for `d1`. -/
theorem watch_gap_freedom_witness :
    (feedWithReplay [] [MapOp.put "d1" (protoMarshal devW)]).take
        (replayEvents (stateAfter ([] : List MapOp))).length
      = replayEvents (stateAfter ([] : List MapOp))
    ∧ (∀ ent ∈ (stateAfter ([] : List MapOp)).entries,
        (⟨"inserted", ent.1, ent.2.1, ent.2.2⟩ : MapEvent) ∈
          (feedWithReplay [] [MapOp.put "d1" (protoMarshal devW)]).take
            (replayEvents (stateAfter ([] : List MapOp))).length)
    ∧ ∃ ev ∈ atomixStore.watchDeliver
          (feedWithReplay [] [MapOp.put "d1" (protoMarshal devW)]),
        ev.type = EventInserted ∧ ev.device.ID = "d1" :=
  watch_gap_freedom [] [MapOp.put "d1" (protoMarshal devW)] "d1" devW
    (by decide) (by decide)
